import Mathlib

/-!
Verification of the `DynamicBetaKLController` from
`recipe/exploration/dynamic_beta_kl.py`.

The controller is embedded shallowly over exact rationals: rewards are
lists of `ℚ`, group identifiers are lists of `ℕ`, and the controller
state is a structure mirroring the Python object's fields.  The update
method is modelled as a function returning `Option` state: `none` models
the `IndexError` numpy raises when `uids` is longer than `rewards`
(fancy indexing with an out-of-range index), and `some st` models a
normal return with the mutated state.
-/

namespace DynBeta

/-- Rectified linear unit, `np.clip(x, 0.0, None)` applied pointwise. -/
def relu (x : ℚ) : ℚ := max x 0

/-- `np.clip(x, lo, hi)`: maximum with `lo` first, then minimum with `hi`. -/
def clip (x lo hi : ℚ) : ℚ := min (max x lo) hi

/-- The controller state: the constructor arguments plus the mutable
coefficient `value`, started at `beta_max` ("start conservative").
The Python constructor performs no validation whatsoever. -/
structure DynamicBetaKLController where
  beta_min : ℚ
  beta_max : ℚ
  eps : ℚ
  ema_alpha : Option ℚ
  value : ℚ
deriving DecidableEq

/-- `DynamicBetaKLController.__init__`: stores the four configuration
fields unvalidated and sets `value` to `beta_max`. -/
def init (beta_min beta_max eps : ℚ) (ema_alpha : Option ℚ) :
    DynamicBetaKLController :=
  ⟨beta_min, beta_max, eps, ema_alpha, beta_max⟩

/-- `rr.mean()` for a group of rewards. -/
def mean_r (rr : List ℚ) : ℚ := rr.sum / rr.length

/-- `g = rr - mean_r`: the centered rewards of a group. -/
def centered (rr : List ℚ) : List ℚ := rr.map (fun x => x - mean_r rr)

/-- `p = (g > 0).mean()`: fraction of rollouts strictly above the group mean. -/
def pfrac (rr : List ℚ) : ℚ :=
  ((centered rr).countP (fun x => decide (0 < x)) : ℚ) / rr.length

/-- `pos = np.clip(g, 0.0, None)`: rectified positive deviations. -/
def pos (rr : List ℚ) : List ℚ := (centered rr).map relu

/-- `pos_sum = pos.sum()`. -/
def pos_sum (rr : List ℚ) : ℚ := (pos rr).sum

/-- `np.sum(R * R)` where `R = pos / pos_sum`. -/
def sumR2 (rr : List ℚ) : ℚ :=
  ((pos rr).map (fun x => (x / pos_sum rr) ^ 2)).sum

/-- `n_eff = 1.0 / np.sum(R * R)`: inverse participation ratio. -/
def n_eff (rr : List ℚ) : ℚ := 1 / sumR2 rr

/-- `tilde_n`: `0` under the `pos_sum <= eps` guard, otherwise `n_eff / G`. -/
def tilde_n (eps : ℚ) (rr : List ℚ) : ℚ :=
  if pos_sum rr ≤ eps then 0 else n_eff rr / rr.length

/-- `s_p = 4.0 * p * (1.0 - p)`: bell-shaped sign-balance factor. -/
def s_p (rr : List ℚ) : ℚ := 4 * pfrac rr * (1 - pfrac rr)

/-- `s = s_p * tilde_n`: the per-group reliability score. -/
def s (eps : ℚ) (rr : List ℚ) : ℚ := s_p rr * tilde_n eps rr

/-- The distinct uids in order of first occurrence, as produced by the
`defaultdict(list)` grouping loop (Python dicts preserve insertion order). -/
def keysInOrder (uids : List ℕ) : List ℕ :=
  uids.foldl (fun acc u => if u ∈ acc then acc else acc ++ [u]) []

/-- `r[idxs]` for the group of uid `u`: the rewards whose aligned uid is `u`.
`List.zip` truncates to the shorter list, which matches the Python
behaviour in the non-error case `len(uids) <= len(rewards)`. -/
def groupRewards (rewards : List ℚ) (uids : List ℕ) (u : ℕ) : List ℚ :=
  (rewards.zip uids).filterMap (fun q => if q.2 = u then some q.1 else none)

/-- `s_batch = float(np.mean(s_list))`, defensively `0.0` for an empty
`s_list` (which happens exactly when there are no uids). -/
def s_batch (eps : ℚ) (rewards : List ℚ) (uids : List ℕ) : ℚ :=
  let ks := keysInOrder uids
  if ks = [] then 0
  else ((ks.map (fun u => s eps (groupRewards rewards uids u))).sum) / ks.length

/-- `beta_t = np.clip(beta_max - (beta_max - beta_min) * s_batch, beta_min, beta_max)`. -/
def beta_t (st : DynamicBetaKLController) (rewards : List ℚ) (uids : List ℕ) : ℚ :=
  clip (st.beta_max - (st.beta_max - st.beta_min) * s_batch st.eps rewards uids)
    st.beta_min st.beta_max

/-- The final assignment to `self.value`: EMA blend when `ema_alpha` is
set, plain replacement otherwise. -/
def newValue (st : DynamicBetaKLController) (bt : ℚ) : ℚ :=
  match st.ema_alpha with
  | some a => a * st.value + (1 - a) * bt
  | none => bt

/-- `update_with_stats`: early return on an empty rewards tensor; `none`
(an `IndexError`, state untouched) when `uids` is longer than `rewards`;
otherwise the state with `value` recomputed. -/
def update_with_stats (st : DynamicBetaKLController)
    (rewards : List ℚ) (uids : List ℕ) : Option DynamicBetaKLController :=
  if rewards.length = 0 then some st
  else if rewards.length < uids.length then none
  else some { st with value := newValue st (beta_t st rewards uids) }

/-- A sequence of update calls, stopping at the first error. -/
def runUpdates : DynamicBetaKLController → List (List ℚ × List ℕ) →
    Option DynamicBetaKLController
  | st, [] => some st
  | st, b :: bs => (update_with_stats st b.1 b.2).bind (fun st2 => runUpdates st2 bs)

/-- The per-group reliability score as the spec's §4.1 words give it:
mean, centered values, fraction above the mean, rectified deviations,
normalized distribution, inverse participation ratio, normalized
effective sample size, and the bell-shaped factor, combined as
`4 * p * (1 - p) * tilde_n`. -/
def specGroupScore (eps : ℚ) (rr : List ℚ) : ℚ :=
  let G : ℚ := rr.length
  let m := rr.sum / G
  let g := rr.map (fun x => x - m)
  let p : ℚ := ((g.filter (fun x => decide (0 < x))).length : ℚ) / G
  let posl := g.map (fun x => max x 0)
  let S := posl.sum
  let tn := if S ≤ eps then 0 else 1 / (posl.map (fun x => (x / S) ^ 2)).sum / G
  4 * p * (1 - p) * tn

/-- The spec's batch aggregation: the arithmetic mean of the per-group
scores, defensively `0` when there are no groups. -/
def specSBatch (eps : ℚ) (rewards : List ℚ) (uids : List ℕ) : ℚ :=
  let ks := keysInOrder uids
  if ks = [] then 0
  else ((ks.map (fun u => specGroupScore eps (groupRewards rewards uids u))).sum) / ks.length

/-! ### Helper lemmas -/

lemma specGroupScore_eq (e : ℚ) (rr : List ℚ) : specGroupScore e rr = s e rr := by
  simp only [specGroupScore, s, s_p, tilde_n, n_eff, sumR2, pos, pos_sum, pfrac,
    centered, mean_r, show relu = fun x => max x 0 from rfl,
    List.countP_eq_length_filter]

lemma specSBatch_eq (e : ℚ) (rw : List ℚ) (uids : List ℕ) :
    specSBatch e rw uids = s_batch e rw uids := by
  simp only [specSBatch, s_batch, specGroupScore_eq]

lemma clip_mem {lo hi : ℚ} (x : ℚ) (h : lo ≤ hi) :
    lo ≤ clip x lo hi ∧ clip x lo hi ≤ hi :=
  ⟨le_min (le_max_right x lo) h, min_le_right _ _⟩

lemma clip_hi (lo hi : ℚ) : clip hi lo hi = hi := by
  unfold clip
  rcases le_total lo hi with h | h
  · rw [max_eq_left h, min_self]
  · rw [max_eq_right h, min_eq_right h]

lemma update_some_cases {st st' : DynamicBetaKLController} {rw : List ℚ} {uids : List ℕ}
    (h : update_with_stats st rw uids = some st') :
    (rw.length = 0 ∧ st' = st) ∨
      (rw.length ≠ 0 ∧ ¬ rw.length < uids.length ∧
        st' = { st with value := newValue st (beta_t st rw uids) }) := by
  unfold update_with_stats at h
  split at h
  · exact Or.inl ⟨by assumption, (Option.some.inj h).symm⟩
  · split at h
    · exact Option.noConfusion h
    · exact Or.inr ⟨by assumption, by assumption, (Option.some.inj h).symm⟩

lemma update_config {st st' : DynamicBetaKLController} {rw : List ℚ} {uids : List ℕ}
    (h : update_with_stats st rw uids = some st') :
    st'.beta_min = st.beta_min ∧ st'.beta_max = st.beta_max ∧ st'.eps = st.eps ∧
      st'.ema_alpha = st.ema_alpha := by
  rcases update_some_cases h with ⟨-, rfl⟩ | ⟨-, -, rfl⟩ <;> exact ⟨rfl, rfl, rfl, rfl⟩

lemma update_value_none {st st' : DynamicBetaKLController} {rw : List ℚ} {uids : List ℕ}
    (h : update_with_stats st rw uids = some st')
    (hema : st.ema_alpha = none) (hne : rw.length ≠ 0) :
    st'.value = beta_t st rw uids := by
  rcases update_some_cases h with ⟨h0, rfl⟩ | ⟨-, -, rfl⟩
  · exact absurd h0 hne
  · show newValue st _ = _
    unfold newValue
    rw [hema]

lemma update_value_ema {st st' : DynamicBetaKLController} {rw : List ℚ} {uids : List ℕ}
    {a : ℚ} (h : update_with_stats st rw uids = some st')
    (hema : st.ema_alpha = some a) (hne : rw.length ≠ 0) :
    st'.value = a * st.value + (1 - a) * beta_t st rw uids := by
  rcases update_some_cases h with ⟨h0, rfl⟩ | ⟨-, -, rfl⟩
  · exact absurd h0 hne
  · show newValue st _ = _
    unfold newValue
    rw [hema]

lemma beta_t_congr (st1 st2 : DynamicBetaKLController) (rw : List ℚ) (uids : List ℕ)
    (h1 : st1.beta_min = st2.beta_min) (h2 : st1.beta_max = st2.beta_max)
    (h3 : st1.eps = st2.eps) :
    beta_t st1 rw uids = beta_t st2 rw uids := by
  unfold beta_t
  rw [h1, h2, h3]

lemma newValue_mem {st : DynamicBetaKLController} {bt : ℚ}
    (hema : ∀ a, st.ema_alpha = some a → 0 ≤ a ∧ a ≤ 1)
    (hv1 : st.beta_min ≤ st.value) (hv2 : st.value ≤ st.beta_max)
    (hb1 : st.beta_min ≤ bt) (hb2 : bt ≤ st.beta_max) :
    st.beta_min ≤ newValue st bt ∧ newValue st bt ≤ st.beta_max := by
  unfold newValue
  cases hA : st.ema_alpha with
  | none => exact ⟨hb1, hb2⟩
  | some a =>
    obtain ⟨ha0, ha1⟩ := hema a hA
    dsimp only
    constructor
    · nlinarith [mul_nonneg ha0 (sub_nonneg.mpr hv1),
        mul_nonneg (sub_nonneg.mpr ha1) (sub_nonneg.mpr hb1)]
    · nlinarith [mul_nonneg ha0 (sub_nonneg.mpr hv2),
        mul_nonneg (sub_nonneg.mpr ha1) (sub_nonneg.mpr hb2)]

lemma update_preserves {st st' : DynamicBetaKLController} {rw : List ℚ} {uids : List ℕ}
    (h : update_with_stats st rw uids = some st')
    (hb : st.beta_min ≤ st.beta_max)
    (hema : ∀ a, st.ema_alpha = some a → 0 ≤ a ∧ a ≤ 1)
    (hv1 : st.beta_min ≤ st.value) (hv2 : st.value ≤ st.beta_max) :
    st.beta_min ≤ st'.value ∧ st'.value ≤ st.beta_max := by
  rcases update_some_cases h with ⟨-, rfl⟩ | ⟨-, -, rfl⟩
  · exact ⟨hv1, hv2⟩
  · have hbt : st.beta_min ≤ beta_t st rw uids ∧ beta_t st rw uids ≤ st.beta_max :=
      clip_mem _ hb
    exact newValue_mem hema hv1 hv2 hbt.1 hbt.2

lemma runUpdates_inv (bs : List (List ℚ × List ℕ)) :
    ∀ st st' : DynamicBetaKLController,
      runUpdates st bs = some st' →
      st.beta_min ≤ st.beta_max →
      (∀ a, st.ema_alpha = some a → 0 ≤ a ∧ a ≤ 1) →
      st.beta_min ≤ st.value → st.value ≤ st.beta_max →
      st'.beta_min = st.beta_min ∧ st'.beta_max = st.beta_max ∧
        st.beta_min ≤ st'.value ∧ st'.value ≤ st.beta_max := by
  induction bs with
  | nil =>
    intro st st' h hb hema hv1 hv2
    obtain rfl := (Option.some.inj h).symm
    exact ⟨rfl, rfl, hv1, hv2⟩
  | cons b bs ih =>
    intro st st' h hb hema hv1 hv2
    rw [runUpdates] at h
    rcases Option.bind_eq_some.mp h with ⟨st2, hu, hrun⟩
    obtain ⟨e1, e2, e3, e4⟩ := update_config hu
    obtain ⟨w1, w2⟩ := update_preserves hu hb hema hv1 hv2
    obtain ⟨f1, f2, g1, g2⟩ := ih st2 st' hrun
      (by rw [e1, e2]; exact hb) (fun a ha => hema a (by rw [← e4]; exact ha))
      (by rw [e1]; exact w1) (by rw [e2]; exact w2)
    exact ⟨f1.trans e1, f2.trans e2, by rw [← e1]; exact g1, by rw [← e2]; exact g2⟩

lemma sum_relu_const (c : ℚ) : ∀ l : List ℚ, (∀ x ∈ l, 0 < x → x = c) →
    (l.map relu).sum = c * l.countP (fun x => decide (0 < x))
  | [], _ => by simp
  | x :: t, hl => by
    have hx := hl x (List.mem_cons_self x t)
    have ht := sum_relu_const c t (fun y hy => hl y (List.mem_cons_of_mem x hy))
    rcases le_or_lt x 0 with hx0 | hx0
    · rw [List.map_cons, List.sum_cons, List.countP_cons, ht]
      simp [relu, max_eq_right hx0, not_lt.mpr hx0]
    · rw [List.map_cons, List.sum_cons, List.countP_cons, ht]
      simp only [relu, max_eq_left (le_of_lt hx0), decide_eq_true_eq, hx0, if_true]
      rw [hx hx0]
      push_cast
      ring

lemma sum_relu_sq_const (c : ℚ) : ∀ l : List ℚ, (∀ x ∈ l, 0 < x → x = c) →
    ((l.map relu).map (fun x => x ^ 2)).sum = c ^ 2 * l.countP (fun x => decide (0 < x))
  | [], _ => by simp
  | x :: t, hl => by
    have hx := hl x (List.mem_cons_self x t)
    have ht := sum_relu_sq_const c t (fun y hy => hl y (List.mem_cons_of_mem x hy))
    rcases le_or_lt x 0 with hx0 | hx0
    · rw [List.map_cons, List.map_cons, List.sum_cons, List.countP_cons, ht]
      simp [relu, max_eq_right hx0, not_lt.mpr hx0]
    · rw [List.map_cons, List.map_cons, List.sum_cons, List.countP_cons, ht]
      simp only [relu, max_eq_left (le_of_lt hx0), decide_eq_true_eq, hx0, if_true]
      rw [hx hx0]
      push_cast
      ring

lemma sum_map_div_sq (S : ℚ) : ∀ l : List ℚ,
    (l.map (fun x => (x / S) ^ 2)).sum = (l.map (fun x => x ^ 2)).sum / S ^ 2
  | [] => by simp
  | x :: t => by
    rw [List.map_cons, List.map_cons, List.sum_cons, List.sum_cons, sum_map_div_sq S t,
      div_pow, add_div]

/-! ### Claim theorems -/

/-- C3: with `beta_min = 0`, `beta_max = 1`, `eps = 1e-8` and smoothing
disabled, a single update on one group of 4 rewards `[1, 1, -1, -1]`
yields `p = 1/2`, `pos_sum = 2`, `n_eff = 2`, `tilde_n = 1/2`, `s_p = 1`,
group score `s = 1/2`, `s_batch = 1/2`, and final value `1/2`. -/
theorem C3_concrete_scenario :
    pfrac [1, 1, -1, -1] = 1/2 ∧
    pos_sum [1, 1, -1, -1] = 2 ∧
    n_eff [1, 1, -1, -1] = 2 ∧
    tilde_n (1/100000000) [1, 1, -1, -1] = 1/2 ∧
    s_p [1, 1, -1, -1] = 1 ∧
    s (1/100000000) [1, 1, -1, -1] = 1/2 ∧
    s_batch (1/100000000) [1, 1, -1, -1] [0, 0, 0, 0] = 1/2 ∧
    update_with_stats (init 0 1 (1/100000000) none) [1, 1, -1, -1] [0, 0, 0, 0] =
      some ⟨0, 1, 1/100000000, none, 1/2⟩ := by
  norm_num [update_with_stats, init, newValue, beta_t, clip, s_batch, keysInOrder,
    groupRewards, s, s_p, tilde_n, n_eff, sumR2, pos, pos_sum, pfrac, centered, mean_r,
    relu, List.filterMap_cons, List.zip, List.zipWith, List.countP_cons, List.countP_nil,
    Function.comp]

/-- C4: an update call with an empty batch is a no-op: the returned
state is exactly the input state, every field included. -/
theorem C4_empty_batch_noop (st : DynamicBetaKLController) (uids : List ℕ) :
    update_with_stats st [] uids = some st := by
  simp [update_with_stats]

/-- C6: a group in which every reward equals the same constant gets
reliability score `0`, and on the batch `[2, 2, 2]` (one group of three
identical rewards) the freshly computed coefficient is `beta_max`. -/
theorem C6_degenerate_group (st : DynamicBetaKLController) (rr : List ℚ) (c : ℚ)
    (h : ∀ x ∈ rr, x = c) :
    s st.eps rr = 0 ∧ beta_t st [2, 2, 2] [0, 0, 0] = st.beta_max := by
  constructor
  · cases hrr : rr with
    | nil => norm_num [s, s_p, pfrac, centered]
    | cons y t =>
      rw [← hrr]
      have hlen : (rr.length : ℚ) ≠ 0 := by
        have : rr.length ≠ 0 := by rw [hrr]; simp
        exact_mod_cast this
      have hmean : mean_r rr = c := by
        rw [mean_r, List.sum_eq_card_nsmul rr c h, nsmul_eq_mul]
        exact mul_div_cancel_left₀ c hlen
      have hcount : (centered rr).countP (fun x => decide (0 < x)) = 0 := by
        rw [List.countP_eq_zero]
        intro x hx
        rw [centered] at hx
        obtain ⟨y, hy, rfl⟩ := List.mem_map.mp hx
        rw [h y hy, hmean, sub_self]
        simp
      rw [s, s_p, pfrac, hcount]
      push_cast
      ring
  · have hsb : s_batch st.eps [2, 2, 2] [0, 0, 0] = 0 := by
      norm_num [s_batch, keysInOrder, groupRewards, s, s_p, tilde_n, n_eff, sumR2,
        pos, pos_sum, pfrac, centered, mean_r, relu, List.filterMap_cons, List.zip,
        List.zipWith, List.countP_cons, List.countP_nil, Function.comp]
    rw [beta_t, hsb, mul_zero, sub_zero]
    exact clip_hi _ _

/-- C6 witness: a concrete controller and a concrete constant group
discharging the hypothesis of the degenerate-group theorem. -/
theorem C6_degenerate_group_witness :
    s (init (1/4) (3/4) (1/100000000) none).eps [5, 5, 5] = 0 ∧
    beta_t (init (1/4) (3/4) (1/100000000) none) [2, 2, 2] [0, 0, 0] =
      (init (1/4) (3/4) (1/100000000) none).beta_max :=
  C6_degenerate_group (init (1/4) (3/4) (1/100000000) none) [5, 5, 5] 5 (by simp)

/-- C7: the code does NOT fail fast on a length mismatch between
`rewards` and `group_ids`. With `rewards = [1, -1, 5]` and
`group_ids = [0, 0]` the update completes normally and returns exactly
the state it would return for `rewards = [1, -1]`: the trailing reward
`5` is silently dropped. -/
theorem C7_length_mismatch_behavior :
    update_with_stats (init 0 1 (1/100000000) none) [1, -1, 5] [0, 0] =
      update_with_stats (init 0 1 (1/100000000) none) [1, -1] [0, 0] ∧
    update_with_stats (init 0 1 (1/100000000) none) [1, -1, 5] [0, 0] =
      some ⟨0, 1, 1/100000000, none, 1/2⟩ := by
  constructor <;>
    norm_num [update_with_stats, init, newValue, beta_t, clip, s_batch, keysInOrder,
      groupRewards, s, s_p, tilde_n, n_eff, sumR2, pos, pos_sum, pfrac, centered, mean_r,
      relu, List.filterMap_cons, List.zip, List.zipWith, List.countP_cons, List.countP_nil,
      Function.comp]

/-- C8: the constructor does NOT validate its configuration: with
`beta_min = 1 > 0 = beta_max` and `ema_alpha = 2` outside `[0, 1]` it
still returns a fully-formed controller (with `value = beta_max = 0`,
already violating `beta_min ≤ value`), instead of failing. -/
theorem C8_no_construction_validation :
    init 1 0 (1/100000000) (some 2) =
      (⟨1, 0, 1/100000000, some 2, 0⟩ : DynamicBetaKLController) ∧
    (init 1 0 (1/100000000) (some 2)).value = 0 ∧
    ¬ (init 1 0 (1/100000000) (some 2)).beta_min ≤
        (init 1 0 (1/100000000) (some 2)).beta_max ∧
    ¬ (init 1 0 (1/100000000) (some 2)).beta_min ≤
        (init 1 0 (1/100000000) (some 2)).value := by
  refine ⟨rfl, rfl, ?_, ?_⟩ <;> norm_num [init]

/-- C1: with `beta_min ≤ beta_max` and, when provided, `ema_alpha` in
`[0, 1]`, the value is `beta_max` at construction and stays inside
`[beta_min, beta_max]` after every completed sequence of update calls
with arbitrary reward batches. -/
theorem C1_bounds_invariant (bmin bmax e : ℚ) (ema : Option ℚ)
    (hb : bmin ≤ bmax) (hema : ∀ a, ema = some a → 0 ≤ a ∧ a ≤ 1) :
    (init bmin bmax e ema).value = bmax ∧
    ∀ (bs : List (List ℚ × List ℕ)) (st' : DynamicBetaKLController),
      runUpdates (init bmin bmax e ema) bs = some st' →
      bmin ≤ st'.value ∧ st'.value ≤ bmax := by
  refine ⟨rfl, fun bs st' h => ?_⟩
  obtain ⟨-, -, g1, g2⟩ :=
    runUpdates_inv bs (init bmin bmax e ema) st' h hb hema hb le_rfl
  exact ⟨g1, g2⟩

/-- C1 witness: a concrete run whose final value `3/4` lies in `[0, 1]`. -/
theorem C1_bounds_invariant_witness :
    runUpdates (init 0 1 (1/100000000) (some (1/2))) [([1, -1], [0, 0])] =
      some ⟨0, 1, 1/100000000, some (1/2), 3/4⟩ ∧
    (0 : ℚ) ≤ (⟨0, 1, 1/100000000, some (1/2), 3/4⟩ : DynamicBetaKLController).value ∧
    (⟨0, 1, 1/100000000, some (1/2), 3/4⟩ : DynamicBetaKLController).value ≤ 1 := by
  have hrun : runUpdates (init 0 1 (1/100000000) (some (1/2))) [([1, -1], [0, 0])] =
      some ⟨0, 1, 1/100000000, some (1/2), 3/4⟩ := by
    norm_num [runUpdates, Option.bind, update_with_stats, init, newValue, beta_t, clip,
      s_batch, keysInOrder, groupRewards, s, s_p, tilde_n, n_eff, sumR2, pos, pos_sum,
      pfrac, centered, mean_r, relu, List.filterMap_cons, List.zip, List.zipWith,
      List.countP_cons, List.countP_nil, Function.comp]
  exact ⟨hrun, (C1_bounds_invariant 0 1 (1/100000000) (some (1/2)) (by norm_num)
    (fun a ha => by rw [← Option.some.inj ha]; norm_num)).2 [([1, -1], [0, 0])] _ hrun⟩

/-- C2: for a non-empty batch with smoothing disabled, the value after a
completed update is the clamp into `[beta_min, beta_max]` of
`beta_max - (beta_max - beta_min) * s_batch`, where `s_batch` is the
arithmetic mean of the per-group §4.1 reliability scores. -/
theorem C2_coefficient_mapping (st st' : DynamicBetaKLController) (rw : List ℚ)
    (uids : List ℕ) (hema : st.ema_alpha = none) (hne : rw ≠ [])
    (h : update_with_stats st rw uids = some st') :
    st'.value =
      clip (st.beta_max - (st.beta_max - st.beta_min) * specSBatch st.eps rw uids)
        st.beta_min st.beta_max := by
  have hz : rw.length ≠ 0 := fun h0 => hne (List.length_eq_zero.mp h0)
  rw [update_value_none h hema hz, beta_t, specSBatch_eq]

/-- C2 witness: the concrete batch `[1, 1, -1, -1]` in one group. -/
theorem C2_coefficient_mapping_witness :
    update_with_stats (init 0 1 (1/100000000) none) [1, 1, -1, -1] [0, 0, 0, 0] =
      some ⟨0, 1, 1/100000000, none, 1/2⟩ ∧
    (⟨0, 1, 1/100000000, none, 1/2⟩ : DynamicBetaKLController).value =
      clip (1 - (1 - 0) * specSBatch (1/100000000) [1, 1, -1, -1] [0, 0, 0, 0]) 0 1 := by
  have hu : update_with_stats (init 0 1 (1/100000000) none) [1, 1, -1, -1] [0, 0, 0, 0] =
      some ⟨0, 1, 1/100000000, none, 1/2⟩ := by
    norm_num [update_with_stats, init, newValue, beta_t, clip, s_batch, keysInOrder,
      groupRewards, s, s_p, tilde_n, n_eff, sumR2, pos, pos_sum, pfrac, centered, mean_r,
      relu, List.filterMap_cons, List.zip, List.zipWith, List.countP_cons, List.countP_nil,
      Function.comp]
  exact ⟨hu, C2_coefficient_mapping (init 0 1 (1/100000000) none) _ _ _ rfl (by simp) hu⟩

lemma centered_balanced : centered [1, 1, -1, -1] = ([1, 1, -1, -1] : List ℚ) := by
  norm_num [centered, mean_r]

lemma forall_pos_eq_one : ∀ x ∈ centered [1, 1, -1, -1], 0 < x → x = 1 := by
  rw [centered_balanced]
  intro x hx
  fin_cases hx <;> norm_num

/-- C5 counterexample: the group `[1, 1, -1, -1]` has exactly half its
rollouts strictly above the mean and half strictly below, and its
positive deviations are equal in magnitude (all centered positives
equal `1`), yet `tilde_n ≠ 1` and the group score is not `1`. -/
theorem C5_counterexample :
    ([1, 1, -1, -1] : List ℚ).length ≠ 0 ∧
    2 * (centered [1, 1, -1, -1]).countP (fun x => decide (0 < x)) =
      ([1, 1, -1, -1] : List ℚ).length ∧
    2 * (centered [1, 1, -1, -1]).countP (fun x => decide (x < 0)) =
      ([1, 1, -1, -1] : List ℚ).length ∧
    (∀ x ∈ centered [1, 1, -1, -1], 0 < x → x = 1) ∧
    tilde_n (1/100000000) [1, 1, -1, -1] ≠ 1 ∧
    s (1/100000000) [1, 1, -1, -1] ≠ 1 := by
  refine ⟨by norm_num, ?_, ?_, forall_pos_eq_one, ?_, ?_⟩ <;>
    norm_num [centered_balanced, s, s_p, tilde_n, n_eff, sumR2, pos, pos_sum, pfrac,
      centered, mean_r, relu, List.countP_cons, List.countP_nil, Function.comp]

/-- C5 (amended): a group of size `G ≠ 0` with exactly half its rollouts
strictly above the mean and half strictly below has `s_p = 1`; if
additionally the positive deviations are equal in magnitude and their
sum clears the `eps` guard, then `tilde_n = 1/2` (not `1`), so the
group's reliability score is exactly `1/2` (not `1`). -/
theorem C5_balanced_group_amended (e c : ℚ) (rr : List ℚ)
    (hG : rr.length ≠ 0)
    (h1 : 2 * (centered rr).countP (fun x => decide (0 < x)) = rr.length)
    (_h2 : 2 * (centered rr).countP (fun x => decide (x < 0)) = rr.length)
    (hc : ∀ x ∈ centered rr, 0 < x → x = c)
    (he : e < pos_sum rr) :
    s_p rr = 1 ∧ tilde_n e rr = 1/2 ∧ s e rr = 1/2 := by
  set k := (centered rr).countP (fun x => decide (0 < x)) with hk
  have hk0 : k ≠ 0 := by
    intro h0
    rw [h0, mul_zero] at h1
    exact hG h1.symm
  have hkQ : (k : ℚ) ≠ 0 := Nat.cast_ne_zero.mpr hk0
  have hlenQ : (rr.length : ℚ) = 2 * k := by exact_mod_cast h1.symm
  have hp : pfrac rr = 1/2 := by
    rw [pfrac, ← hk, hlenQ]
    field_simp
    ring
  have hsp : s_p rr = 1 := by
    rw [s_p, hp]
    norm_num
  have hcpos : 0 < c := by
    have hcp : 0 < (centered rr).countP (fun x => decide (0 < x)) :=
      hk ▸ Nat.pos_of_ne_zero hk0
    obtain ⟨x, hx, hpx⟩ := List.countP_pos_iff.mp hcp
    rw [decide_eq_true_eq] at hpx
    rw [← hc x hx hpx]
    exact hpx
  have hcne : c ≠ 0 := ne_of_gt hcpos
  have hS : pos_sum rr = c * k := by
    rw [pos_sum, pos, sum_relu_const c (centered rr) hc, ← hk]
  have hsum2 : sumR2 rr = 1 / k := by
    rw [sumR2, sum_map_div_sq (pos_sum rr) (pos rr), pos,
      sum_relu_sq_const c (centered rr) hc, ← hk, hS]
    field_simp
    ring
  have hneff : n_eff rr = k := by
    rw [n_eff, hsum2, one_div_one_div]
  have htn : tilde_n e rr = 1/2 := by
    rw [tilde_n, if_neg (not_le.mpr he), hneff, hlenQ]
    field_simp
    ring
  refine ⟨hsp, htn, ?_⟩
  rw [s, hsp, htn]
  norm_num

/-- C5 witness: the amended theorem instantiated on `[1, 1, -1, -1]`. -/
theorem C5_balanced_group_amended_witness :
    ([1, 1, -1, -1] : List ℚ).length ≠ 0 ∧
    1/100000000 < pos_sum [1, 1, -1, -1] ∧
    (s_p [1, 1, -1, -1] = 1 ∧ tilde_n (1/100000000) [1, 1, -1, -1] = 1/2 ∧
      s (1/100000000) [1, 1, -1, -1] = 1/2) := by
  refine ⟨by norm_num, by norm_num [pos_sum, pos, centered, mean_r, relu], ?_⟩
  exact C5_balanced_group_amended (1/100000000) 1 [1, 1, -1, -1]
    (by norm_num)
    (by norm_num [centered_balanced, List.countP_cons, List.countP_nil])
    (by norm_num [centered_balanced, List.countP_cons, List.countP_nil])
    forall_pos_eq_one
    (by norm_num [pos_sum, pos, centered, mean_r, relu])

/-- C9: with `ema_alpha = a ∈ [0, 1]` configured, after a completed
update on a non-empty batch the new value lies between the old value and
the freshly computed `beta_t` (inclusive), equals the old value at
`a = 1`, and equals `beta_t` at `a = 0`. -/
theorem C9_ema_blend (st st' : DynamicBetaKLController) (rw : List ℚ) (uids : List ℕ)
    (a : ℚ) (hema : st.ema_alpha = some a) (ha0 : 0 ≤ a) (ha1 : a ≤ 1) (hne : rw ≠ [])
    (h : update_with_stats st rw uids = some st') :
    (min st.value (beta_t st rw uids) ≤ st'.value ∧
      st'.value ≤ max st.value (beta_t st rw uids)) ∧
    (a = 1 → st'.value = st.value) ∧ (a = 0 → st'.value = beta_t st rw uids) := by
  have hz : rw.length ≠ 0 := fun h0 => hne (List.length_eq_zero.mp h0)
  have hval := update_value_ema h hema hz
  refine ⟨⟨?_, ?_⟩, ?_, ?_⟩
  · rcases le_total st.value (beta_t st rw uids) with hvb | hvb
    · rw [min_eq_left hvb, hval]
      nlinarith [mul_nonneg (sub_nonneg.mpr ha1) (sub_nonneg.mpr hvb)]
    · rw [min_eq_right hvb, hval]
      nlinarith [mul_nonneg ha0 (sub_nonneg.mpr hvb)]
  · rcases le_total st.value (beta_t st rw uids) with hvb | hvb
    · rw [max_eq_right hvb, hval]
      nlinarith [mul_nonneg ha0 (sub_nonneg.mpr hvb)]
    · rw [max_eq_left hvb, hval]
      nlinarith [mul_nonneg (sub_nonneg.mpr ha1) (sub_nonneg.mpr hvb)]
  · intro h1
    rw [hval, h1]
    ring
  · intro h0
    rw [hval, h0]
    ring

/-- C9 witness: `a = 1/2`, old value `1`, `beta_t = 1/2`, new value `3/4`. -/
theorem C9_ema_blend_witness :
    update_with_stats (⟨0, 1, 1/100000000, some (1/2), 1⟩ : DynamicBetaKLController)
        [1, -1] [0, 0] = some ⟨0, 1, 1/100000000, some (1/2), 3/4⟩ ∧
    ((min (1 : ℚ)
        (beta_t (⟨0, 1, 1/100000000, some (1/2), 1⟩ : DynamicBetaKLController)
          [1, -1] [0, 0]) ≤ 3/4 ∧
      (3/4 : ℚ) ≤ max 1
        (beta_t (⟨0, 1, 1/100000000, some (1/2), 1⟩ : DynamicBetaKLController)
          [1, -1] [0, 0])) ∧
      ((1 : ℚ)/2 = 1 → (3/4 : ℚ) = 1) ∧
      ((1 : ℚ)/2 = 0 → (3/4 : ℚ) =
        beta_t (⟨0, 1, 1/100000000, some (1/2), 1⟩ : DynamicBetaKLController)
          [1, -1] [0, 0])) := by
  have hu : update_with_stats (⟨0, 1, 1/100000000, some (1/2), 1⟩ : DynamicBetaKLController)
      [1, -1] [0, 0] = some ⟨0, 1, 1/100000000, some (1/2), 3/4⟩ := by
    norm_num [update_with_stats, newValue, beta_t, clip, s_batch, keysInOrder,
      groupRewards, s, s_p, tilde_n, n_eff, sumR2, pos, pos_sum, pfrac, centered, mean_r,
      relu, List.filterMap_cons, List.zip, List.zipWith, List.countP_cons, List.countP_nil,
      Function.comp]
  exact ⟨hu, C9_ema_blend _ _ _ _ _ rfl (by norm_num) (by norm_num) (by simp) hu⟩

/-- C10 counterexample: with smoothing disabled the claim fails for the
empty batch: two starting states that differ only in `value` keep their
different values after updating on the empty batch, so the result does
depend on the previous value for that batch. -/
theorem C10_counterexample :
    update_with_stats (⟨0, 1, 1/100000000, none, 1/2⟩ : DynamicBetaKLController) [] [] =
      some ⟨0, 1, 1/100000000, none, 1/2⟩ ∧
    update_with_stats (⟨0, 1, 1/100000000, none, 1⟩ : DynamicBetaKLController) [] [] =
      some ⟨0, 1, 1/100000000, none, 1⟩ ∧
    (⟨0, 1, 1/100000000, none, 1/2⟩ : DynamicBetaKLController).value ≠
      (⟨0, 1, 1/100000000, none, 1⟩ : DynamicBetaKLController).value := by
  refine ⟨by simp [update_with_stats], by simp [update_with_stats], by norm_num⟩

/-- C10 (amended): with `ema_alpha` unset, updating twice in a row with
the same batch yields the same value after the first and after the
second call; and for every NON-EMPTY batch the resulting value is
independent of the previous value (two starting states agreeing on the
configuration end with equal values). -/
theorem C10_determinism_amended :
    (∀ (st s1 s2 : DynamicBetaKLController) (rw : List ℚ) (uids : List ℕ),
        st.ema_alpha = none →
        update_with_stats st rw uids = some s1 →
        update_with_stats s1 rw uids = some s2 →
        s2.value = s1.value) ∧
    (∀ (st1 st2 s1 s2 : DynamicBetaKLController) (rw : List ℚ) (uids : List ℕ),
        st1.beta_min = st2.beta_min → st1.beta_max = st2.beta_max →
        st1.eps = st2.eps → st1.ema_alpha = none → st2.ema_alpha = none →
        rw ≠ [] →
        update_with_stats st1 rw uids = some s1 →
        update_with_stats st2 rw uids = some s2 →
        s1.value = s2.value) := by
  constructor
  · intro st s1 s2 rw uids hema h1 h2
    by_cases hz : rw.length = 0
    · rcases update_some_cases h1 with ⟨-, rfl⟩ | ⟨hn, -, -⟩
      · rcases update_some_cases h2 with ⟨-, rfl⟩ | ⟨hn, -, -⟩
        · rfl
        · exact absurd hz hn
      · exact absurd hz hn
    · obtain ⟨c1, c2, c3, c4⟩ := update_config h1
      have v1 := update_value_none h1 hema hz
      have v2 := update_value_none h2 (c4.trans hema) hz
      rw [v1, v2, beta_t_congr s1 st rw uids c1 c2 c3]
  · intro st1 st2 s1 s2 rw uids e1 e2 e3 m1 m2 hne h1 h2
    have hz : rw.length ≠ 0 := fun h0 => hne (List.length_eq_zero.mp h0)
    rw [update_value_none h1 m1 hz, update_value_none h2 m2 hz,
      beta_t_congr st1 st2 rw uids e1 e2 e3]

/-- C10 witness: two starting values `1` and `0` both land on `1/2`
after one update on the non-empty batch `[1, -1]`. -/
theorem C10_determinism_amended_witness :
    update_with_stats (⟨0, 1, 1/100000000, none, 1⟩ : DynamicBetaKLController)
        [1, -1] [0, 0] = some ⟨0, 1, 1/100000000, none, 1/2⟩ ∧
    update_with_stats (⟨0, 1, 1/100000000, none, 0⟩ : DynamicBetaKLController)
        [1, -1] [0, 0] = some ⟨0, 1, 1/100000000, none, 1/2⟩ ∧
    (⟨0, 1, 1/100000000, none, 1/2⟩ : DynamicBetaKLController).value =
      (⟨0, 1, 1/100000000, none, 1/2⟩ : DynamicBetaKLController).value := by
  have hu1 : update_with_stats (⟨0, 1, 1/100000000, none, 1⟩ : DynamicBetaKLController)
      [1, -1] [0, 0] = some ⟨0, 1, 1/100000000, none, 1/2⟩ := by
    norm_num [update_with_stats, newValue, beta_t, clip, s_batch, keysInOrder,
      groupRewards, s, s_p, tilde_n, n_eff, sumR2, pos, pos_sum, pfrac, centered, mean_r,
      relu, List.filterMap_cons, List.zip, List.zipWith, List.countP_cons, List.countP_nil,
      Function.comp]
  have hu2 : update_with_stats (⟨0, 1, 1/100000000, none, 0⟩ : DynamicBetaKLController)
      [1, -1] [0, 0] = some ⟨0, 1, 1/100000000, none, 1/2⟩ := by
    norm_num [update_with_stats, newValue, beta_t, clip, s_batch, keysInOrder,
      groupRewards, s, s_p, tilde_n, n_eff, sumR2, pos, pos_sum, pfrac, centered, mean_r,
      relu, List.filterMap_cons, List.zip, List.zipWith, List.countP_cons, List.countP_nil,
      Function.comp]
  exact ⟨hu1, hu2,
    C10_determinism_amended.2 _ _ _ _ _ _ rfl rfl rfl rfl rfl (by simp) hu1 hu2⟩

end DynBeta
